import Mathlib

/-!
# Boids: the flock update step of `src/boids.c`

A shallow embedding of the simulation core of `boids.c`: the three flocking
rules (`rule1`, `rule2`, `rule3`), the homing rule (`moveFlock`) and the step
function (`moveBoids`).

Modelling conventions.

* `float` values are exact rationals (`ℚ`): the theorems below are statements
  about the arithmetic the program writes down, not about IEEE rounding. The one
  place where a rounding decides a branch, the proximity test of `rule2`, is
  treated a second time with the rounding explicit (`toFloat`, `rule2Float`).
* `float boidArray[POPSIZE][6]` is a function `Fin N → Fin 6 → ℚ` and
  `float boidUpdate[POPSIZE][3]` a function `Fin N → Fin 3 → ℚ`; the population
  size is a parameter `N` of every definition and the program runs at
  `N = POPSIZE`.
* The function-local statics `count` and `sign` of `moveFlock` are fields of the
  state; they are mathematical integers (`Int`). The counter starts at `0` and
  grows by one per call, so it stays far below the range limit of a C `int` in
  any run shorter than `2^31` steps.
* A `for (i = 0; i < POPSIZE; i++)` loop is a left fold over `List.finRange N`,
  that is, the loop body run for `i = 0, 1, ..., N-1` in this order. The OpenMP
  pragmas on the two loops of `moveBoids` are read as the sequential loop.
-/

namespace Boids

/-! ## The program -/

/-- Number of boids, `#define POPSIZE 50`. -/
def POPSIZE : Nat := 50

/-- Side of the square the boids start in, `#define SCREENSIZE 100`. -/
def SCREENSIZE : Nat := 100

/-- Column macro `#define BX 0`; like the C macro it is an untyped index, used
for `boidArray` (six columns) and for `boidUpdate` (three columns). -/
abbrev BX {n : Nat} [NeZero n] : Fin n := 0

/-- Column macro `#define BY 1`. -/
abbrev BY {n : Nat} [NeZero n] : Fin n := 1

/-- Column macro `#define BZ 2`. -/
abbrev BZ {n : Nat} [NeZero n] : Fin n := 2

/-- Column macro `#define VX 3`. -/
abbrev VX {n : Nat} [NeZero n] : Fin n := 3

/-- Column macro `#define VY 4`. -/
abbrev VY {n : Nat} [NeZero n] : Fin n := 4

/-- Column macro `#define VZ 5`. -/
abbrev VZ {n : Nat} [NeZero n] : Fin n := 5

/-- The type of `boidArray`: location (columns 0..2) and velocity (columns 3..5)
of every boid. -/
abbrev BoidArray (N : Nat) : Type := Fin N → Fin 6 → ℚ

/-- The type of `boidUpdate`: the change in velocity stored for each boid. -/
abbrev BoidUpdate (N : Nat) : Type := Fin N → Fin 3 → ℚ

/-- The mutable state of the program: the two global arrays and the two static
locals of `moveFlock`. -/
structure State (N : Nat) where
  boidArray : BoidArray N
  boidUpdate : BoidUpdate N
  count : Int
  sign : Int

/-- The assignment `m[i][c] = v` on a two-dimensional array. -/
def setAt {N k : Nat} (m : Fin N → Fin k → ℚ) (i : Fin N) (c : Fin k) (v : ℚ) :
    Fin N → Fin k → ℚ :=
  fun i' c' => if i' = i ∧ c' = c then v else m i' c'

/-- Source `rule1` (lines 55-75): the loop adds up column `position` of every
boid but `j`, the total is divided by `POPSIZE-1` (an `int` expression converted
to `float`), and the offset of boid `j` is a hundredth of the way to it. -/
def rule1 {N : Nat} (boidArray : BoidArray N) (j : Fin N) (position : Fin 6) : ℚ :=
  let pc : ℚ := (List.finRange N).foldl
    (fun pc i => if i ≠ j then pc + boidArray i position else pc) 0
  let pc : ℚ := pc / ((((N : Int) - 1 : Int)) : ℚ)
  (pc - boidArray j position) / 100

/-- Source `rule2` (lines 78-97): the loop subtracts from `c` the difference to
every other boid whose column `position` is at distance `fabs(..) < 1`. Here the
difference is exact; `rule2Float` is the same loop with the rounding of the
`float` subtractions explicit. -/
def rule2 {N : Nat} (boidArray : BoidArray N) (j : Fin N) (position : Fin 6) : ℚ :=
  (List.finRange N).foldl
    (fun c i =>
      if i ≠ j then
        if |boidArray i position - boidArray j position| < 1 then
          c - (boidArray i position - boidArray j position)
        else c
      else c) 0

/-- Source `rule3` (lines 100-120): as `rule1`, on the column `velocity` and
with the divisor `8`. -/
def rule3 {N : Nat} (boidArray : BoidArray N) (j : Fin N) (velocity : Fin 6) : ℚ :=
  let pv : ℚ := (List.finRange N).foldl
    (fun pv i => if i ≠ j then pv + boidArray i velocity else pv) 0
  let pv : ℚ := pv / ((((N : Int) - 1 : Int)) : ℚ)
  (pv - boidArray j velocity) / 8

/-- Lines 192-194 of `moveFlock`: the value of `sign` after
`if (count % 200 == 0) sign = sign * -1;` (`%` of C truncates, `Int.tmod`). -/
def flipSign (count sign : Int) : Int :=
  if Int.tmod count 200 = 0 then sign * -1 else sign

/-- Lines 196-206 of `moveFlock`: the point `(px, py, pz)` chosen from `sign`. -/
def target (sign : Int) : ℚ × ℚ × ℚ :=
  if sign = 1 then (40, 40, 40) else (60, 60, 60)

/-- Body of the loop of `moveFlock` (lines 211-213) for boid `i`. -/
def flockStep {N : Nat} (boidArray : BoidArray N) (p : ℚ × ℚ × ℚ)
    (boidUpdate : BoidUpdate N) (i : Fin N) : BoidUpdate N :=
  let boidUpdate := setAt boidUpdate i BX (boidUpdate i BX + (p.1 - boidArray i BX) / 200)
  let boidUpdate := setAt boidUpdate i BY (boidUpdate i BY + (p.2.1 - boidArray i BY) / 200)
  let boidUpdate := setAt boidUpdate i BZ (boidUpdate i BZ + (p.2.2 - boidArray i BZ) / 200)
  boidUpdate

/-- Source `moveFlock` (lines 184-216). -/
def moveFlock {N : Nat} (s : State N) : State N :=
  let sign := flipSign s.count s.sign
  let p := target sign
  let boidUpdate := (List.finRange N).foldl (flockStep s.boidArray p) s.boidUpdate
  { boidArray := s.boidArray, boidUpdate := boidUpdate, count := s.count + 1, sign := sign }

/-- Body of the first loop of `moveBoids` (lines 225-237) for boid `i`. -/
def ruleStep {N : Nat} (boidArray : BoidArray N) (boidUpdate : BoidUpdate N) (i : Fin N) :
    BoidUpdate N :=
  let boidUpdate := setAt boidUpdate i BX (rule1 boidArray i BX)
  let boidUpdate := setAt boidUpdate i BY (rule1 boidArray i BY)
  let boidUpdate := setAt boidUpdate i BZ (rule1 boidArray i BZ)
  let boidUpdate := setAt boidUpdate i BX (boidUpdate i BX + rule2 boidArray i BX)
  let boidUpdate := setAt boidUpdate i BY (boidUpdate i BY + rule2 boidArray i BY)
  let boidUpdate := setAt boidUpdate i BZ (boidUpdate i BZ + rule2 boidArray i BZ)
  let boidUpdate := setAt boidUpdate i BX (boidUpdate i BX + rule3 boidArray i VX)
  let boidUpdate := setAt boidUpdate i BY (boidUpdate i BY + rule3 boidArray i VY)
  let boidUpdate := setAt boidUpdate i BZ (boidUpdate i BZ + rule3 boidArray i VZ)
  boidUpdate

/-- Body of the second loop of `moveBoids` (lines 248-255) for boid `i`. -/
def commitStep {N : Nat} (boidUpdate : BoidUpdate N) (boidArray : BoidArray N) (i : Fin N) :
    BoidArray N :=
  let boidArray := setAt boidArray i VX (boidArray i VX + boidUpdate i BX)
  let boidArray := setAt boidArray i VY (boidArray i VY + boidUpdate i BY)
  let boidArray := setAt boidArray i VZ (boidArray i VZ + boidUpdate i BZ)
  let boidArray := setAt boidArray i BX (boidArray i BX + boidArray i VX)
  let boidArray := setAt boidArray i BY (boidArray i BY + boidArray i VY)
  let boidArray := setAt boidArray i BZ (boidArray i BZ + boidArray i VZ)
  boidArray

/-- The second loop of `moveBoids` (lines 245-256): the commit phase. -/
def commitLoop {N : Nat} (boidUpdate : BoidUpdate N) (boidArray : BoidArray N) : BoidArray N :=
  (List.finRange N).foldl (commitStep boidUpdate) boidArray

/-- The first loop of `moveBoids` (lines 221-238): the rule phase. -/
def ruleLoop {N : Nat} (boidArray : BoidArray N) (boidUpdate : BoidUpdate N) : BoidUpdate N :=
  (List.finRange N).foldl (ruleStep boidArray) boidUpdate

/-- Source `moveBoids` (lines 218-257): rule phase, `moveFlock()`, commit phase. -/
def moveBoids {N : Nat} (s : State N) : State N :=
  let s1 : State N :=
    { boidArray := s.boidArray, boidUpdate := ruleLoop s.boidArray s.boidUpdate,
      count := s.count, sign := s.sign }
  let s2 : State N := moveFlock s1
  { boidArray := commitLoop s2.boidUpdate s2.boidArray, boidUpdate := s2.boidUpdate,
    count := s2.count, sign := s2.sign }

/-- The `boidArray` column holding the position of axis `a` (`BX + a`). -/
def posCol (a : Fin 3) : Fin 6 := ⟨a.val, by omega⟩

/-- The `boidArray` column holding the velocity of axis `a` (`VX + a`). -/
def velCol (a : Fin 3) : Fin 6 := ⟨a.val + 3, by omega⟩

/-- Component `a` of a point `(px, py, pz)`. -/
def coord (p : ℚ × ℚ × ℚ) (a : Fin 3) : ℚ :=
  if a.val = 0 then p.1 else if a.val = 1 then p.2.1 else p.2.2

/-- Row `i` of `boidUpdate` after the rule statements of boid `i`. -/
def ruleRow {N : Nat} (b : BoidArray N) (i : Fin N) : Fin 3 → ℚ :=
  fun a => rule1 b i (posCol a) + rule2 b i (posCol a) + rule3 b i (velCol a)

/-- Row `i` of `boidUpdate` after the homing statements of boid `i`. -/
def flockRow {N : Nat} (b : BoidArray N) (p : ℚ × ℚ × ℚ) (i : Fin N) (r : Fin 3 → ℚ) :
    Fin 3 → ℚ :=
  fun a => r a + (coord p a - b i (posCol a)) / 200

/-- Row `i` of `boidArray` after the commit statements of boid `i`. -/
def commitRow {N : Nat} (u : BoidUpdate N) (i : Fin N) (r : Fin 6 → ℚ) : Fin 6 → ℚ :=
  fun c =>
    if h : c.val < 3 then r c + (r ⟨c.val + 3, by omega⟩ + u i ⟨c.val, h⟩)
    else r c + u i ⟨c.val - 3, by omega⟩

/-- The point `(px, py, pz)` that a call of `moveFlock` entered in state `s`
pulls the flock towards: `sign` is flipped first (line 192), then tested. -/
def homingTarget {N : Nat} (s : State N) : ℚ × ℚ × ℚ :=
  target (flipSign s.count s.sign)

/-- A flock in which every boid sits at the origin and flies with velocity
`1` on each axis. -/
def unitVelocityFlock : BoidArray POPSIZE :=
  fun _ c => if c.val < 3 then 0 else 1

/-- The all-zero `boidUpdate`. -/
def zeroUpdate {N : Nat} : BoidUpdate N := fun _ _ => 0

/-- The state of a fresh process before the first step: the static
initialisers `count = 0` and `sign = 1` of `moveFlock`, with any content of the
two arrays. -/
def initialState {N : Nat} (b : BoidArray N) (u : BoidUpdate N) : State N :=
  { boidArray := b, boidUpdate := u, count := 0, sign := 1 }

/-- A flock whose boids all rest at the origin. -/
def restFlock : BoidArray POPSIZE := fun _ _ => 0

/-- A flock that agrees with `unitVelocityFlock` on the velocity columns and
differs from it on every position. -/
def shiftedFlock : BoidArray POPSIZE :=
  fun i c => if c.val < 3 then (i.val : ℚ) + 5 else 1

/-- A flock whose boid `i` sits at `(i, i, i)`: any two boids are at least one
unit apart on every axis. -/
def spreadFlock : BoidArray POPSIZE := fun i _ => (i.val : ℚ)

/-- One iteration of the loop of `initBoids` (lines 142-147) for boid `i`. The
library function `random()` is a stream `random : Nat → Int` of the values it
returns, call after call; the second component of the loop state counts the
calls made so far. `%` of C truncates (`Int.tmod`) and the `(float)` conversion
of the remainder is exact. -/
def initStep {N : Nat} (random : Nat → Int) (st : BoidArray N × Nat) (i : Fin N) :
    BoidArray N × Nat :=
  let boidArray := st.1
  let calls := st.2
  let boidArray := setAt boidArray i BX ((Int.tmod (random calls) (SCREENSIZE : Int) : Int) : ℚ)
  let boidArray := setAt boidArray i BY
    ((Int.tmod (random (calls + 1)) (SCREENSIZE : Int) : Int) : ℚ)
  let boidArray := setAt boidArray i BZ
    ((Int.tmod (random (calls + 2)) (SCREENSIZE : Int) : Int) : ℚ)
  let boidArray := setAt boidArray i VX 0
  let boidArray := setAt boidArray i VY 0
  let boidArray := setAt boidArray i VZ 0
  (boidArray, calls + 3)

/-- Source `initBoids` (lines 137-149): a `void` function without any test of
`POPSIZE` or `SCREENSIZE` and without an error path. -/
def initBoids {N : Nat} (random : Nat → Int) (boidArray : BoidArray N) : BoidArray N :=
  ((List.finRange N).foldl (initStep random) (boidArray, 0)).1

/-- A stream of non-negative values for `random()`. -/
def sampleRandom : Nat → Int := fun n => 7919 * (n : Int) + 104729

/-- A flock of two boids. -/
def pairFlock : BoidArray 2 := fun i c => (i.val : ℚ) * 10 + (c.val : ℚ)

/-- A flock that agrees with `spreadFlock` on the `x` axis (columns `BX`, `VX`)
and differs from it on the other two axes. -/
def spreadFlockX : BoidArray POPSIZE :=
  fun i c => if c.val = 0 ∨ c.val = 3 then (i.val : ℚ) else 17

/-- Row `i` of `boidArray` after the statements of `initBoids` for boid `i`,
when `calls` values of `random()` were consumed before. -/
def initRow (random : Nat → Int) (calls : Nat) : Fin 6 → ℚ :=
  fun c =>
    if c.val < 3 then ((Int.tmod (random (calls + c.val)) (SCREENSIZE : Int) : Int) : ℚ)
    else 0

/-- The step `moveBoids` with the iterations of its first loop run in the order
`order1` and those of its second loop in the order `order2`; the call of
`moveFlock` between the two loops is unchanged. `moveBoids` is the case of two
ascending orders. -/
def moveBoidsIn {N : Nat} (order1 order2 : List (Fin N)) (s : State N) : State N :=
  let s1 : State N :=
    { boidArray := s.boidArray, boidUpdate := order1.foldl (ruleStep s.boidArray) s.boidUpdate,
      count := s.count, sign := s.sign }
  let s2 : State N := moveFlock s1
  { boidArray := order2.foldl (commitStep s2.boidUpdate) s2.boidArray,
    boidUpdate := s2.boidUpdate, count := s2.count, sign := s2.sign }

/-- The flock `b` with its rows permuted by `σ`: row `i` of the result is row
`σ i` of `b`. -/
def permuteRows {N : Nat} (σ : Equiv.Perm (Fin N)) (b : BoidArray N) : BoidArray N :=
  fun i => b (σ i)

/-- A flock at rest at the point `(60, 60, 60)`. -/
def homeFlock : BoidArray POPSIZE := fun _ c => if c.val < 3 then 60 else 0

/-- The separation term of boid `i` towards boid `j` on column `c`, with the
proximity test of `rule2`. -/
def pairPush {N : Nat} (b : BoidArray N) (c : Fin 6) (i j : Fin N) : ℚ :=
  if |b i c - b j c| < 1 then -(b i c - b j c) else 0

/-- Rounding of a rational to the nearest integer, ties to the even one. -/
def roundHalfEven (x : ℚ) : Int :=
  if x - (⌊x⌋ : ℚ) < 1 / 2 then ⌊x⌋
  else if 1 / 2 < x - (⌊x⌋ : ℚ) then ⌊x⌋ + 1
  else if ⌊x⌋ % 2 = 0 then ⌊x⌋ else ⌊x⌋ + 1

/-- The value of the C type `float` (IEEE 754 binary32, round to nearest, ties
to even) that the exact result `x` of an operation is rounded to: `x` is rounded
to a multiple of `2 ^ (e - 23)`, where `2 ^ e ≤ |x| < 2 ^ (e + 1)` and `e` is at
least `-126` (24 significant bits, gradual underflow). Overflow to infinity,
which needs `|x| ≥ 2 ^ 128 - 2 ^ 103`, is outside the model. -/
def toFloat (x : ℚ) : ℚ :=
  if x = 0 then 0
  else
    (roundHalfEven (x / (2 : ℚ) ^ (max (Int.log 2 |x|) (-126) - 23)) : ℚ)
      * (2 : ℚ) ^ (max (Int.log 2 |x|) (-126) - 23)

/-- Source `rule2` (lines 78-97) with the rounding of its two `float`
operations explicit: `fl` is the rounding of an exact result to `float`. The
difference `boidArray[i][position]-boidArray[j][position]` is a `float`
subtraction, `fabs` and the comparison with `1` are exact, and `c -= ...` is a
second `float` subtraction. With `fl` the identity this is `rule2`; the program
runs it with `fl = toFloat`. -/
def rule2Float {N : Nat} (fl : ℚ → ℚ) (boidArray : BoidArray N) (j : Fin N)
    (position : Fin 6) : ℚ :=
  (List.finRange N).foldl
    (fun c i =>
      if i ≠ j then
        if |fl (boidArray i position - boidArray j position)| < 1 then
          fl (c - fl (boidArray i position - boidArray j position))
        else c
      else c) 0

/-- A flock in which boid `0` sits at `1`, boid `1` at `2 ^ (-30)` and every
other boid at `50`, on each axis; all three values are of type `float`. -/
def nearFlock : BoidArray POPSIZE :=
  fun i _ => if i.val = 0 then 1 else if i.val = 1 then 1 / 1073741824 else 50

/-! ## Loops as sums -/

theorem foldl_cond_add {ι : Type} (p : ι → Prop) [DecidablePred p] (x : ι → ℚ)
    (l : List ι) (acc : ℚ) :
    l.foldl (fun pc i => if p i then pc + x i else pc) acc
      = acc + (l.map (fun i => if p i then x i else 0)).sum := by
  induction l generalizing acc with
  | nil => simp
  | cons i l ih =>
    simp only [List.foldl_cons, List.map_cons, List.sum_cons, ih]
    by_cases h : p i <;> simp [h, add_assoc]

theorem foldl_except_eq_sum {N : Nat} (x : Fin N → ℚ) (j : Fin N) :
    (List.finRange N).foldl (fun pc i => if i ≠ j then pc + x i else pc) 0
      = ∑ i ∈ Finset.univ.erase j, x i := by
  rw [foldl_cond_add (fun i => i ≠ j) x, zero_add, ← Fin.sum_univ_def, ← Finset.sum_filter,
    Finset.filter_ne']

theorem rule2_eq_sum {N : Nat} (b : BoidArray N) (j : Fin N) (a : Fin 6) :
    rule2 b j a
      = ∑ i ∈ (Finset.univ.erase j).filter (fun i => |b i a - b j a| < 1),
          -(b i a - b j a) := by
  have h : ∀ (l : List (Fin N)) (acc : ℚ),
      l.foldl (fun c i =>
        if i ≠ j then
          if |b i a - b j a| < 1 then c - (b i a - b j a) else c
        else c) acc
      = l.foldl (fun c i =>
          if i ≠ j ∧ |b i a - b j a| < 1 then c + -(b i a - b j a) else c) acc := by
    intro l
    induction l with
    | nil => intro acc; rfl
    | cons i l ih =>
      intro acc
      simp only [List.foldl_cons]
      rw [ih]
      congr 1
      by_cases h1 : i ≠ j <;> by_cases h2 : |b i a - b j a| < 1 <;> simp [h1, h2, sub_eq_add_neg]
  unfold rule2
  rw [h, foldl_cond_add (fun i => i ≠ j ∧ |b i a - b j a| < 1), zero_add, ← Fin.sum_univ_def,
    ← Finset.sum_filter]
  congr 1
  ext i
  simp only [Finset.mem_filter, Finset.mem_erase, Finset.mem_univ, true_and, and_true]

/-! ## The flocking rules -/

/-- C2. Cohesion: for every flock, every boid `j` and every column `a` of
`boidArray` (in particular the three position columns), `rule1 j a` is
`(pc - boidArray[j][a]) / 100`, where `pc` is the sum of `boidArray[i][a]` over
all boids `i ≠ j` divided by `POPSIZE - 1`. -/
theorem rule1_spec (b : BoidArray POPSIZE) (j : Fin POPSIZE) (a : Fin 6) :
    rule1 b j a
      = ((∑ i ∈ Finset.univ.erase j, b i a) / ((POPSIZE : ℚ) - 1) - b j a) / 100 := by
  unfold rule1
  rw [foldl_except_eq_sum (fun i => b i a) j]
  simp only [Int.cast_sub, Int.cast_natCast, Int.cast_one]

/-- C4. Alignment: for every flock, every boid `j` and every axis `a`, `rule3`
on the velocity column of `a` is `(pv - velocity[j][a]) / 8`, where `pv` is the
sum of `velocity[i][a]` over all boids `i ≠ j` divided by `POPSIZE - 1`; and the
result is the same on any two flocks that agree on the three velocity columns,
whatever their positions are. -/
theorem rule3_spec (b b' : BoidArray POPSIZE) (j : Fin POPSIZE) (a : Fin 3) :
    rule3 b j (velCol a)
        = ((∑ i ∈ Finset.univ.erase j, b i (velCol a)) / ((POPSIZE : ℚ) - 1)
            - b j (velCol a)) / 8
      ∧ ((∀ (i : Fin POPSIZE) (c : Fin 3), b i (velCol c) = b' i (velCol c)) →
          rule3 b j (velCol a) = rule3 b' j (velCol a)) := by
  have key : ∀ b0 : BoidArray POPSIZE, rule3 b0 j (velCol a)
      = ((∑ i ∈ Finset.univ.erase j, b0 i (velCol a)) / ((POPSIZE : ℚ) - 1)
          - b0 j (velCol a)) / 8 := by
    intro b0
    unfold rule3
    rw [foldl_except_eq_sum (fun i => b0 i (velCol a)) j]
    simp only [Int.cast_sub, Int.cast_natCast, Int.cast_one]
  refine ⟨key b, fun h => ?_⟩
  rw [key b, key b']
  simp only [h]

/-- C10. For every boid `j` and column `a`: if every other boid `i ≠ j` has
`|boidArray[i][a] - boidArray[j][a]| ≥ 1` then `rule2 j a = 0`; in particular,
when this holds on each of the three position columns, the separation
contribution of `j` is zero on all three axes. -/
theorem rule2_zero_of_far (b : BoidArray POPSIZE) (j : Fin POPSIZE) :
    (∀ a : Fin 6, (∀ i : Fin POPSIZE, i ≠ j → 1 ≤ |b i a - b j a|) → rule2 b j a = 0)
      ∧ ((∀ (a : Fin 3) (i : Fin POPSIZE), i ≠ j → 1 ≤ |b i (posCol a) - b j (posCol a)|) →
          ∀ a : Fin 3, rule2 b j (posCol a) = 0) := by
  have key : ∀ a : Fin 6, (∀ i : Fin POPSIZE, i ≠ j → 1 ≤ |b i a - b j a|) →
      rule2 b j a = 0 := by
    intro a h
    rw [rule2_eq_sum]
    apply Finset.sum_eq_zero
    intro i hi
    rw [Finset.mem_filter, Finset.mem_erase] at hi
    exact absurd hi.2 (not_lt.mpr (h i hi.1.1))
  exact ⟨key, fun h a => key (posCol a) (h a)⟩

/-! ## Loops that write one row per iteration -/

theorem foldl_rows {N : Nat} {α : Type} (f : (Fin N → α) → Fin N → (Fin N → α))
    (g : Fin N → α → α)
    (hf : ∀ (u : Fin N → α) (i k : Fin N), f u i k = if k = i then g i (u i) else u k)
    (l : List (Fin N)) (hl : l.Nodup) (u : Fin N → α) (k : Fin N) :
    l.foldl f u k = if k ∈ l then g k (u k) else u k := by
  induction l generalizing u with
  | nil => simp
  | cons i l ih =>
    rw [List.nodup_cons] at hl
    rw [List.foldl_cons, ih hl.2, hf]
    by_cases hk : k ∈ l
    · have hki : k ≠ i := fun h => hl.1 (h ▸ hk)
      simp [hk, hki]
    · by_cases hki : k = i
      · simp [hki, hl.1]
      · simp [hk, hki]

theorem foldl_finRange_rows {N : Nat} {α : Type} (f : (Fin N → α) → Fin N → (Fin N → α))
    (g : Fin N → α → α)
    (hf : ∀ (u : Fin N → α) (i k : Fin N), f u i k = if k = i then g i (u i) else u k)
    (u : Fin N → α) (k : Fin N) :
    (List.finRange N).foldl f u k = g k (u k) := by
  rw [foldl_rows f g hf _ (List.nodup_finRange N), if_pos (List.mem_finRange k)]

theorem ruleStep_rows {N : Nat} (b : BoidArray N) (u : BoidUpdate N) (i k : Fin N) :
    ruleStep b u i k = if k = i then ruleRow b i else u k := by
  funext c
  by_cases h : k = i
  · subst h
    fin_cases c <;> simp [ruleStep, setAt, ruleRow, posCol, velCol, BX, BY, BZ, VX, VY, VZ]
  · simp [ruleStep, setAt, h]

theorem flockStep_rows {N : Nat} (b : BoidArray N) (p : ℚ × ℚ × ℚ) (u : BoidUpdate N)
    (i k : Fin N) :
    flockStep b p u i k = if k = i then flockRow b p i (u i) else u k := by
  funext c
  by_cases h : k = i
  · subst h
    fin_cases c <;> simp [flockStep, setAt, flockRow, posCol, coord, BX, BY, BZ]
  · simp [flockStep, setAt, h]

theorem commitStep_rows {N : Nat} (u : BoidUpdate N) (b : BoidArray N) (i k : Fin N) :
    commitStep u b i k = if k = i then commitRow u i (b i) else b k := by
  funext c
  by_cases h : k = i
  · subst h
    fin_cases c <;> simp [commitStep, setAt, commitRow, BX, BY, BZ, VX, VY, VZ]
  · simp [commitStep, setAt, h]

theorem commitRow_vel {N : Nat} (u : BoidUpdate N) (i : Fin N) (r : Fin 6 → ℚ) (a : Fin 3) :
    commitRow u i r (velCol a) = r (velCol a) + u i a := by
  have h : ¬ (a.val + 3 < 3) := by omega
  simp [commitRow, velCol, h]

theorem commitRow_pos {N : Nat} (u : BoidUpdate N) (i : Fin N) (r : Fin 6 → ℚ) (a : Fin 3) :
    commitRow u i r (posCol a) = r (posCol a) + (r (velCol a) + u i a) := by
  simp [commitRow, velCol, posCol]

theorem ruleLoop_apply {N : Nat} (b : BoidArray N) (u : BoidUpdate N) (i : Fin N) :
    ruleLoop b u i = ruleRow b i :=
  foldl_finRange_rows (ruleStep b) (fun i _ => ruleRow b i) (ruleStep_rows b) u i

theorem moveFlock_boidUpdate {N : Nat} (s : State N) (i : Fin N) :
    (moveFlock s).boidUpdate i
      = flockRow s.boidArray (target (flipSign s.count s.sign)) i (s.boidUpdate i) :=
  foldl_finRange_rows (flockStep s.boidArray (target (flipSign s.count s.sign)))
    (flockRow s.boidArray (target (flipSign s.count s.sign)))
    (flockStep_rows s.boidArray _) s.boidUpdate i

theorem commitLoop_apply {N : Nat} (u : BoidUpdate N) (b : BoidArray N) (i : Fin N) :
    commitLoop u b i = commitRow u i (b i) :=
  foldl_finRange_rows (commitStep u) (commitRow u) (commitStep_rows u) b i

/-! ## One step -/

theorem moveBoids_boidUpdate {N : Nat} (s : State N) (i : Fin N) :
    (moveBoids s).boidUpdate i
      = flockRow s.boidArray (target (flipSign s.count s.sign)) i (ruleRow s.boidArray i) := by
  show (moveFlock _).boidUpdate i = _
  rw [moveFlock_boidUpdate]
  show flockRow s.boidArray _ i (ruleLoop s.boidArray s.boidUpdate i) = _
  rw [ruleLoop_apply]

theorem moveBoids_boidArray {N : Nat} (s : State N) (i : Fin N) :
    (moveBoids s).boidArray i = commitRow (moveBoids s).boidUpdate i (s.boidArray i) := by
  show commitLoop _ _ i = _
  rw [commitLoop_apply]
  rfl

theorem moveBoids_count {N : Nat} (s : State N) : (moveBoids s).count = s.count + 1 := rfl

theorem moveBoids_sign {N : Nat} (s : State N) :
    (moveBoids s).sign = flipSign s.count s.sign := rfl

theorem moveFlock_count {N : Nat} (s : State N) : (moveFlock s).count = s.count + 1 := rfl

theorem moveFlock_sign {N : Nat} (s : State N) :
    (moveFlock s).sign = flipSign s.count s.sign := rfl

/-- C1. For every pre-step state and every other content `u` of `boidUpdate`,
one call of `moveBoids` leaves, for every boid `i` and axis `a`,
`velocity'[i][a] = velocity[i][a] + (rule1 + rule2 + rule3 + (target[a] -
position[i][a]) / 200)` with the four terms taken on the pre-step `boidArray`,
and `position'[i][a] = position[i][a] + velocity'[i][a]`; the state after the
call is the same whatever `boidUpdate` held before it. -/
theorem moveBoids_spec (s : State POPSIZE) (u : BoidUpdate POPSIZE) (i : Fin POPSIZE)
    (a : Fin 3) :
    (moveBoids s).boidArray i (velCol a)
        = s.boidArray i (velCol a)
          + (rule1 s.boidArray i (posCol a) + rule2 s.boidArray i (posCol a)
              + rule3 s.boidArray i (velCol a)
              + (coord (homingTarget s) a - s.boidArray i (posCol a)) / 200)
      ∧ (moveBoids s).boidArray i (posCol a)
          = s.boidArray i (posCol a) + (moveBoids s).boidArray i (velCol a)
      ∧ moveBoids { boidArray := s.boidArray, boidUpdate := u, count := s.count,
                    sign := s.sign }
          = moveBoids s := by
  have hv : (moveBoids s).boidArray i (velCol a)
      = s.boidArray i (velCol a)
        + (rule1 s.boidArray i (posCol a) + rule2 s.boidArray i (posCol a)
            + rule3 s.boidArray i (velCol a)
            + (coord (homingTarget s) a - s.boidArray i (posCol a)) / 200) := by
    rw [moveBoids_boidArray, commitRow_vel, moveBoids_boidUpdate]
    rfl
  refine ⟨hv, ?_, ?_⟩
  · rw [moveBoids_boidArray, commitRow_pos, commitRow_vel]
  · have h : ruleLoop s.boidArray u = ruleLoop s.boidArray s.boidUpdate :=
      funext fun k => by rw [ruleLoop_apply, ruleLoop_apply]
    simp only [moveBoids, h]

/-- C6. For every call of `moveFlock`, every boid `i` and every axis `a`, the
call adds exactly `(target[a] - position[i][a]) / 200` to `boidUpdate[i][a]`,
on top of what was stored there; the target is `(40,40,40)` when the sign
tested on line 196 (the value `sign` has when the call returns) is `+1` and
`(60,60,60)` otherwise, in particular when it is `-1`; and `boidArray` is left
unchanged. -/
theorem moveFlock_spec (s : State POPSIZE) (i : Fin POPSIZE) (a : Fin 3) :
    (moveFlock s).boidUpdate i a
        = s.boidUpdate i a + (coord (homingTarget s) a - s.boidArray i (posCol a)) / 200
      ∧ homingTarget s
          = (if (moveFlock s).sign = 1 then ((40, 40, 40) : ℚ × ℚ × ℚ) else (60, 60, 60))
      ∧ target 1 = (40, 40, 40) ∧ target (-1) = (60, 60, 60)
      ∧ (moveFlock s).boidArray = s.boidArray := by
  refine ⟨?_, rfl, ?_, ?_, rfl⟩
  · rw [moveFlock_boidUpdate]
    rfl
  · simp [target]
  · simp [target]

/-- C9, the claim as stated fails: with an all-zero `boidUpdate` the commit
phase moves boid `0` of `unitVelocityFlock` from `x = 0` to `x = 1`. -/
theorem commit_zero_moves_position :
    commitLoop zeroUpdate unitVelocityFlock ⟨0, by decide⟩ (posCol 0)
        ≠ unitVelocityFlock ⟨0, by decide⟩ (posCol 0)
      ∧ commitLoop zeroUpdate unitVelocityFlock ⟨0, by decide⟩ (posCol 0) = 1 := by
  rw [commitLoop_apply]
  simp [commitRow, unitVelocityFlock, zeroUpdate, posCol]

/-- C9, amended. For every flock, the commit phase run with an all-zero
`boidUpdate` leaves every velocity unchanged and moves every position by that
velocity: `position'[i][a] = position[i][a] + velocity[i][a]`. -/
theorem commit_zero_spec (b : BoidArray POPSIZE) (i : Fin POPSIZE) (a : Fin 3) :
    commitLoop zeroUpdate b i (velCol a) = b i (velCol a)
      ∧ commitLoop zeroUpdate b i (posCol a) = b i (posCol a) + b i (velCol a) := by
  rw [commitLoop_apply, commitRow_vel, commitRow_pos]
  simp [zeroUpdate]

/-! ## Runs from the initial state -/

theorem flipSign_natCast (k : Nat) (sg : Int) :
    flipSign (k : Int) sg = if k % 200 = 0 then -sg else sg := by
  unfold flipSign
  have h : Int.tmod (k : Int) 200 = ((k % 200 : Nat) : Int) := (Int.ofNat_tmod k 200).symm
  rw [h]
  by_cases hk : k % 200 = 0
  · rw [if_pos hk, hk, if_pos Nat.cast_zero, mul_neg, mul_one]
  · have h0 : ((k % 200 : Nat) : Int) ≠ 0 := by exact_mod_cast hk
    rw [if_neg hk, if_neg h0]

/-- Closed form of `count` and `sign` after `k` calls of a step function that
treats the two statics the way `moveFlock` does. -/
theorem statics_iterate {N : Nat} (f : State N → State N)
    (hc : ∀ s, (f s).count = s.count + 1)
    (hs : ∀ s, (f s).sign = flipSign s.count s.sign)
    (b : BoidArray N) (u : BoidUpdate N) (k : Nat) :
    (f^[k] (initialState b u)).count = (k : Int)
      ∧ (f^[k] (initialState b u)).sign
          = if k = 0 then 1 else if ((k - 1) / 200) % 2 = 0 then -1 else 1 := by
  induction k with
  | zero => exact ⟨rfl, rfl⟩
  | succ k ih =>
    rw [Function.iterate_succ_apply', hc, hs, ih.1, ih.2, flipSign_natCast]
    refine ⟨by push_cast; ring, ?_⟩
    rw [if_neg (Nat.succ_ne_zero k), Nat.add_sub_cancel]
    by_cases h0 : k = 0
    · subst h0
      simp
    · rw [if_neg h0]
      by_cases hk : k % 200 = 0
      · have e : k / 200 = (k - 1) / 200 + 1 := by omega
        rw [if_pos hk, e]
        by_cases hp : ((k - 1) / 200) % 2 = 0
        · have : ((k - 1) / 200 + 1) % 2 ≠ 0 := by omega
          simp [hp, this]
        · have : ((k - 1) / 200 + 1) % 2 = 0 := by omega
          simp [hp, this]
      · have e : k / 200 = (k - 1) / 200 := by omega
        rw [if_neg hk, e]

/-- Closed form of the point used by call number `k` (counted from `0`). -/
theorem homingTarget_iterate {N : Nat} (f : State N → State N)
    (hc : ∀ s, (f s).count = s.count + 1)
    (hs : ∀ s, (f s).sign = flipSign s.count s.sign)
    (b : BoidArray N) (u : BoidUpdate N) (k : Nat) :
    homingTarget (f^[k] (initialState b u))
      = if (k / 200) % 2 = 0 then ((60, 60, 60) : ℚ × ℚ × ℚ) else (40, 40, 40) := by
  have h := statics_iterate f hc hs b u (k + 1)
  rw [Function.iterate_succ_apply', hs, if_neg (Nat.succ_ne_zero k), Nat.add_sub_cancel] at h
  unfold homingTarget
  rw [h.2]
  by_cases hp : (k / 200) % 2 = 0 <;> simp [hp, target]

/-- C5, the claim as stated fails: in a fresh process the very first call
(step index `0`) already flips `sign` to `-1`, so it pulls the flock towards
`(60,60,60)` and not towards `(40,40,40)`. -/
theorem first_step_target_is_sixty :
    homingTarget (moveBoids^[0] (initialState restFlock zeroUpdate)) = (60, 60, 60)
      ∧ homingTarget (moveBoids^[0] (initialState restFlock zeroUpdate)) ≠ (40, 40, 40) := by
  rw [homingTarget_iterate moveBoids moveBoids_count moveBoids_sign]
  simp

/-- C5, amended. Counting the calls of `moveBoids` from `0` in a fresh process,
the homing target used by `moveFlock` is `(60,60,60)` for every step index
`0..199`, `(40,40,40)` for every step index `200..399`, and `(60,60,60)` again
for every step index `400..599`. -/
theorem target_schedule (b : BoidArray POPSIZE) (u : BoidUpdate POPSIZE) (j : Fin 200) :
    homingTarget (moveBoids^[j.val] (initialState b u)) = (60, 60, 60)
      ∧ homingTarget (moveBoids^[200 + j.val] (initialState b u)) = (40, 40, 40)
      ∧ homingTarget (moveBoids^[400 + j.val] (initialState b u)) = (60, 60, 60) := by
  have hj := j.isLt
  have h0 : (j.val / 200) % 2 = 0 := by omega
  have h1 : ((200 + j.val) / 200) % 2 ≠ 0 := by omega
  have h2 : ((400 + j.val) / 200) % 2 = 0 := by omega
  simp only [homingTarget_iterate moveBoids moveBoids_count moveBoids_sign]
  exact ⟨if_pos h0, if_neg h1, if_pos h2⟩

/-- C7. Along every run of `moveFlock` calls from the initial state
(`count = 0`, `sign = 1`): after any number `k` of calls `sign` is `+1` or `-1`;
the target is the same for all step indices of one block `[200 m, 200 m + 199]`;
and for every step index `k` the target used at step `k + 200` is the other of
the two points `(40,40,40)`, `(60,60,60)` than the one used at step `k`. -/
theorem sign_and_target_alternate (b : BoidArray POPSIZE) (u : BoidUpdate POPSIZE)
    (k m : Nat) (j j' : Fin 200) :
    ((moveFlock^[k] (initialState b u)).sign = 1 ∨ (moveFlock^[k] (initialState b u)).sign = -1)
      ∧ homingTarget (moveFlock^[200 * m + j.val] (initialState b u))
          = homingTarget (moveFlock^[200 * m + j'.val] (initialState b u))
      ∧ ((homingTarget (moveFlock^[k] (initialState b u)) = (40, 40, 40)
            ∧ homingTarget (moveFlock^[k + 200] (initialState b u)) = (60, 60, 60))
          ∨ (homingTarget (moveFlock^[k] (initialState b u)) = (60, 60, 60)
            ∧ homingTarget (moveFlock^[k + 200] (initialState b u)) = (40, 40, 40))) := by
  have hj := j.isLt
  have hj' := j'.isLt
  refine ⟨?_, ?_, ?_⟩
  · rw [(statics_iterate moveFlock moveFlock_count moveFlock_sign b u k).2]
    by_cases h0 : k = 0
    · exact Or.inl (if_pos h0)
    · rw [if_neg h0]
      by_cases hp : ((k - 1) / 200) % 2 = 0
      · exact Or.inr (if_pos hp)
      · exact Or.inl (if_neg hp)
  · simp only [homingTarget_iterate moveFlock moveFlock_count moveFlock_sign]
    have e : (200 * m + j.val) / 200 = (200 * m + j'.val) / 200 := by omega
    rw [e]
  · simp only [homingTarget_iterate moveFlock moveFlock_count moveFlock_sign]
    by_cases hp : (k / 200) % 2 = 0
    · have hq : ((k + 200) / 200) % 2 ≠ 0 := by omega
      exact Or.inr ⟨if_pos hp, if_neg hq⟩
    · have hq : ((k + 200) / 200) % 2 = 0 := by omega
      exact Or.inl ⟨if_neg hp, if_pos hq⟩

/-- C8. For every population size `N` and every state, one call of `moveBoids`
increments the homing step counter by exactly one, and after `n` calls from the
initial state the counter equals `n`. -/
theorem count_after_calls (N : Nat) (s : State N) (b : BoidArray N) (u : BoidUpdate N)
    (n : Nat) :
    (moveBoids s).count = s.count + 1
      ∧ (moveBoids^[n] (initialState b u)).count = (n : Int) :=
  ⟨rfl, (statics_iterate moveBoids moveBoids_count moveBoids_sign b u n).1⟩

/-- Instance of C4: two flocks with the same velocities and different positions
have the same alignment offset. -/
theorem rule3_spec_witness :
    rule3 unitVelocityFlock ⟨7, by decide⟩ (velCol 0)
      = rule3 shiftedFlock ⟨7, by decide⟩ (velCol 0) :=
  (rule3_spec unitVelocityFlock shiftedFlock ⟨7, by decide⟩ 0).2
    (by intro i c; simp [unitVelocityFlock, shiftedFlock, velCol])

/-- Instance of C10: boid `0` of `spreadFlock` gets no separation offset. -/
theorem rule2_zero_of_far_witness :
    rule2 spreadFlock ⟨0, by decide⟩ (posCol 0) = 0 :=
  (rule2_zero_of_far spreadFlock ⟨0, by decide⟩).2
    (by
      intro a i hi
      have h1 : 1 ≤ i.val := by
        rcases Nat.eq_zero_or_pos i.val with h | h
        · exact absurd (Fin.ext h) hi
        · exact h
      have h2 : (1 : ℚ) ≤ (i.val : ℚ) := by exact_mod_cast h1
      simp only [spreadFlock, Nat.cast_zero, sub_zero]
      rw [abs_of_nonneg (by linarith)]
      exact h2) 0

/-! ## Sum forms for every population size -/

theorem rule1_eq_sum {N : Nat} (b : BoidArray N) (j : Fin N) (c : Fin 6) :
    rule1 b j c = ((∑ i ∈ Finset.univ.erase j, b i c) / ((N : ℚ) - 1) - b j c) / 100 := by
  unfold rule1
  rw [foldl_except_eq_sum (fun i => b i c) j]
  simp only [Int.cast_sub, Int.cast_natCast, Int.cast_one]

theorem rule3_eq_sum {N : Nat} (b : BoidArray N) (j : Fin N) (c : Fin 6) :
    rule3 b j c = ((∑ i ∈ Finset.univ.erase j, b i c) / ((N : ℚ) - 1) - b j c) / 8 := by
  unfold rule3
  rw [foldl_except_eq_sum (fun i => b i c) j]
  simp only [Int.cast_sub, Int.cast_natCast, Int.cast_one]

theorem rule1_congr {N : Nat} (b b' : BoidArray N) (c : Fin 6)
    (h : ∀ i, b i c = b' i c) (j : Fin N) : rule1 b j c = rule1 b' j c := by
  rw [rule1_eq_sum, rule1_eq_sum]
  simp only [h]

theorem rule2_congr {N : Nat} (b b' : BoidArray N) (c : Fin 6)
    (h : ∀ i, b i c = b' i c) (j : Fin N) : rule2 b j c = rule2 b' j c := by
  rw [rule2_eq_sum, rule2_eq_sum]
  simp only [h]

theorem rule3_congr {N : Nat} (b b' : BoidArray N) (c : Fin 6)
    (h : ∀ i, b i c = b' i c) (j : Fin N) : rule3 b j c = rule3 b' j c := by
  rw [rule3_eq_sum, rule3_eq_sum]
  simp only [h]

theorem moveBoids_vel {N : Nat} (s : State N) (i : Fin N) (a : Fin 3) :
    (moveBoids s).boidArray i (velCol a)
      = s.boidArray i (velCol a)
        + (rule1 s.boidArray i (posCol a) + rule2 s.boidArray i (posCol a)
            + rule3 s.boidArray i (velCol a)
            + (coord (homingTarget s) a - s.boidArray i (posCol a)) / 200) := by
  rw [moveBoids_boidArray, commitRow_vel, moveBoids_boidUpdate]
  rfl

theorem moveBoids_pos {N : Nat} (s : State N) (i : Fin N) (a : Fin 3) :
    (moveBoids s).boidArray i (posCol a)
      = s.boidArray i (posCol a) + (moveBoids s).boidArray i (velCol a) := by
  rw [moveBoids_boidArray, commitRow_pos, commitRow_vel]

/-! ## Two boids; independence of the axes -/

/-- C11. With the population size a parameter of the embedding and set to `2`:
for every snapshot, each boid `j`, the other boid `o` and every axis `a`,
`rule1 j a = (position[o][a] - position[j][a]) / 100`; the perceived centre is
the other boid and `j` is nudged a hundredth of the way to it. -/
theorem rule1_two_boids (b : BoidArray 2) (j o : Fin 2) (h : o ≠ j) (a : Fin 3) :
    rule1 b j (posCol a) = (b o (posCol a) - b j (posCol a)) / 100 := by
  have he : ∀ j o : Fin 2, o ≠ j → (Finset.univ.erase j : Finset (Fin 2)) = {o} := by decide
  rw [rule1_eq_sum, he j o h, Finset.sum_singleton]
  norm_num

/-- Instance of C11 on `pairFlock`: boid `0` moves a hundredth of the way to
boid `1`. -/
theorem rule1_two_boids_witness :
    rule1 pairFlock 0 (posCol 0) = (pairFlock 1 (posCol 0) - pairFlock 0 (posCol 0)) / 100 :=
  rule1_two_boids pairFlock 0 1 (by decide) 0

/-- C12. Per-axis independence: if two pre-step states have the same `count`
and `sign` and agree, for every boid, on the position and on the velocity of
one axis `a`, then after one call of `moveBoids` they agree, for every boid, on
the position and on the velocity of axis `a`, however they differ on the other
two axes. -/
theorem moveBoids_axis_independent (s s' : State POPSIZE) (a : Fin 3)
    (hc : s.count = s'.count) (hs : s.sign = s'.sign)
    (hp : ∀ i, s.boidArray i (posCol a) = s'.boidArray i (posCol a))
    (hv : ∀ i, s.boidArray i (velCol a) = s'.boidArray i (velCol a)) (i : Fin POPSIZE) :
    (moveBoids s).boidArray i (posCol a) = (moveBoids s').boidArray i (posCol a)
      ∧ (moveBoids s).boidArray i (velCol a) = (moveBoids s').boidArray i (velCol a) := by
  have ht : homingTarget s = homingTarget s' := by
    unfold homingTarget
    rw [hc, hs]
  have hvel : (moveBoids s).boidArray i (velCol a) = (moveBoids s').boidArray i (velCol a) := by
    rw [moveBoids_vel, moveBoids_vel, ht, hp i, hv i,
      rule1_congr s.boidArray s'.boidArray (posCol a) hp,
      rule2_congr s.boidArray s'.boidArray (posCol a) hp,
      rule3_congr s.boidArray s'.boidArray (velCol a) hv]
  refine ⟨?_, hvel⟩
  rw [moveBoids_pos, moveBoids_pos, hvel, hp i]

/-- Instance of C12: `spreadFlock` and `spreadFlockX` agree on the `x` axis
only, and one step gives boid `3` the same `x` position and velocity. -/
theorem moveBoids_axis_independent_witness :
    (moveBoids (initialState spreadFlock zeroUpdate)).boidArray ⟨3, by decide⟩ (posCol 0)
        = (moveBoids (initialState spreadFlockX zeroUpdate)).boidArray ⟨3, by decide⟩ (posCol 0)
      ∧ (moveBoids (initialState spreadFlock zeroUpdate)).boidArray ⟨3, by decide⟩ (velCol 0)
        = (moveBoids (initialState spreadFlockX zeroUpdate)).boidArray ⟨3, by decide⟩ (velCol 0) :=
  moveBoids_axis_independent (initialState spreadFlock zeroUpdate)
    (initialState spreadFlockX zeroUpdate) 0 rfl rfl
    (fun _ => rfl) (fun _ => rfl)
    ⟨3, by decide⟩

/-! ## Initialisation -/

theorem foldl_untouched {N : Nat} {σ α : Type} (f : σ → Fin N → σ) (rows : σ → Fin N → α)
    (h2 : ∀ (s : σ) (i k : Fin N), k ≠ i → rows (f s i) k = rows s k)
    (l : List (Fin N)) (s : σ) (k : Fin N) (hk : k ∉ l) :
    rows (l.foldl f s) k = rows s k := by
  induction l generalizing s with
  | nil => rfl
  | cons i l ih =>
    rw [List.mem_cons, not_or] at hk
    rw [List.foldl_cons, ih (f s i) hk.2, h2 s i k hk.1]

theorem foldl_establishes {N : Nat} {σ α : Type} (f : σ → Fin N → σ) (rows : σ → Fin N → α)
    (Good : α → Prop) (h1 : ∀ (s : σ) (i : Fin N), Good (rows (f s i) i))
    (h2 : ∀ (s : σ) (i k : Fin N), k ≠ i → rows (f s i) k = rows s k)
    (l : List (Fin N)) (s : σ) (k : Fin N) (hk : k ∈ l) :
    Good (rows (l.foldl f s) k) := by
  induction l generalizing s with
  | nil => exact absurd hk (List.not_mem_nil k)
  | cons i l ih =>
    rw [List.foldl_cons]
    by_cases hl : k ∈ l
    · exact ih (f s i) hl
    · have hki : k = i := by
        rcases List.mem_cons.mp hk with h | h
        · exact h
        · exact absurd h hl
      rw [foldl_untouched f rows h2 l (f s i) k hl, hki]
      exact h1 s i

theorem initStep_rows {N : Nat} (random : Nat → Int) (st : BoidArray N × Nat) (i k : Fin N) :
    (initStep random st i).1 k = if k = i then initRow random st.2 else st.1 k := by
  funext c
  by_cases h : k = i
  · subst h
    fin_cases c <;> simp [initStep, setAt, initRow, BX, BY, BZ, VX, VY, VZ]
  · simp [initStep, setAt, h]

theorem initRow_velCol (random : Nat → Int) (calls : Nat) (a : Fin 3) :
    initRow random calls (velCol a) = 0 := by
  have h : ¬ (a.val + 3 < 3) := by omega
  simp [initRow, velCol, h]

theorem initRow_posCol (random : Nat → Int) (calls : Nat) (a : Fin 3) :
    initRow random calls (posCol a)
      = ((Int.tmod (random (calls + a.val)) (SCREENSIZE : Int) : Int) : ℚ) := by
  have h : a.val < 3 := a.isLt
  simp [initRow, posCol, h]

theorem initBoids_velCol {N : Nat} (random : Nat → Int) (b : BoidArray N) (i : Fin N)
    (a : Fin 3) : initBoids random b i (velCol a) = 0 := by
  refine foldl_establishes (initStep random) (fun st => st.1)
    (fun r => r (velCol a) = 0) ?_ ?_ (List.finRange N) (b, 0) i (List.mem_finRange i)
  · intro st k
    show (initStep random st k).1 k (velCol a) = 0
    rw [initStep_rows, if_pos rfl, initRow_velCol]
  · intro st k k' hk
    show (initStep random st k).1 k' = st.1 k'
    rw [initStep_rows, if_neg hk]

/-- C13. For every sequence of non-negative values returned by `random()`,
after `initBoids` every boid `i` has each position coordinate `p` with
`0 ≤ p < SCREENSIZE` and all three velocity components equal to `0`. -/
theorem initBoids_spec (random : Nat → Int) (hr : ∀ n, 0 ≤ random n)
    (b : BoidArray POPSIZE) (i : Fin POPSIZE) (a : Fin 3) :
    0 ≤ initBoids random b i (posCol a)
      ∧ initBoids random b i (posCol a) < (SCREENSIZE : ℚ)
      ∧ initBoids random b i (velCol a) = 0 := by
  refine ⟨?_, ?_, initBoids_velCol random b i a⟩
  · refine foldl_establishes (initStep random) (fun st => st.1)
      (fun r => 0 ≤ r (posCol a)) ?_ ?_ (List.finRange POPSIZE) (b, 0) i (List.mem_finRange i)
    · intro st k
      show 0 ≤ (initStep random st k).1 k (posCol a)
      rw [initStep_rows, if_pos rfl, initRow_posCol,
        Int.tmod_eq_emod (hr _) (Int.ofNat_nonneg _)]
      exact_mod_cast Int.emod_nonneg _ (by decide)
    · intro st k k' hk
      show (initStep random st k).1 k' = st.1 k'
      rw [initStep_rows, if_neg hk]
  · refine foldl_establishes (initStep random) (fun st => st.1)
      (fun r => r (posCol a) < (SCREENSIZE : ℚ)) ?_ ?_ (List.finRange POPSIZE) (b, 0) i
      (List.mem_finRange i)
    · intro st k
      show (initStep random st k).1 k (posCol a) < (SCREENSIZE : ℚ)
      rw [initStep_rows, if_pos rfl, initRow_posCol,
        Int.tmod_eq_emod (hr _) (Int.ofNat_nonneg _)]
      have h := Int.emod_lt_of_pos (random (st.2 + a.val))
        (show (0 : Int) < (SCREENSIZE : Int) by decide)
      exact_mod_cast h
    · intro st k k' hk
      show (initStep random st k).1 k' = st.1 k'
      rw [initStep_rows, if_neg hk]

/-- Instance of C13 on the stream `sampleRandom`. -/
theorem initBoids_spec_witness :
    0 ≤ initBoids sampleRandom restFlock ⟨4, by decide⟩ (posCol 1)
      ∧ initBoids sampleRandom restFlock ⟨4, by decide⟩ (posCol 1) < (SCREENSIZE : ℚ)
      ∧ initBoids sampleRandom restFlock ⟨4, by decide⟩ (velCol 1) = 0 :=
  initBoids_spec sampleRandom
    (by
      intro n
      have h : (0 : Int) ≤ (n : Int) := Int.ofNat_nonneg n
      unfold sampleRandom
      omega)
    restFlock ⟨4, by decide⟩ 1

/-! ## Order of the iterations -/

theorem foldl_rows_any_order {N : Nat} {α : Type} (f : (Fin N → α) → Fin N → (Fin N → α))
    (g : Fin N → α → α)
    (hf : ∀ (u : Fin N → α) (i k : Fin N), f u i k = if k = i then g i (u i) else u k)
    (σ : Equiv.Perm (Fin N)) (u : Fin N → α) :
    ((List.finRange N).map σ).foldl f u = (List.finRange N).foldl f u := by
  funext k
  have hn : ((List.finRange N).map σ).Nodup := (List.nodup_finRange N).map σ.injective
  have hm : k ∈ (List.finRange N).map σ :=
    List.mem_map.mpr ⟨σ.symm k, List.mem_finRange _, σ.apply_symm_apply k⟩
  rw [foldl_rows f g hf _ hn, if_pos hm, foldl_finRange_rows f g hf]

/-- C15. For every pre-step state and every pair of permutations `σ₁`, `σ₂` of
the boid indices, running the rule-phase loop body in the order `σ₁ 0, σ₁ 1,
...`, then `moveFlock`, then the commit loop body in the order `σ₂ 0, σ₂ 1,
...` yields exactly the state (`boidArray`, `boidUpdate`, `count`, `sign`) that
the ascending sequential order yields; and the ascending order is `moveBoids`. -/
theorem moveBoids_order_independent (s : State POPSIZE) (σ₁ σ₂ : Equiv.Perm (Fin POPSIZE)) :
    moveBoidsIn ((List.finRange POPSIZE).map σ₁) ((List.finRange POPSIZE).map σ₂) s
        = moveBoidsIn (List.finRange POPSIZE) (List.finRange POPSIZE) s
      ∧ moveBoidsIn (List.finRange POPSIZE) (List.finRange POPSIZE) s = moveBoids s := by
  refine ⟨?_, rfl⟩
  unfold moveBoidsIn
  simp only [foldl_rows_any_order (ruleStep s.boidArray) (fun i _ => ruleRow s.boidArray i)
    (ruleStep_rows s.boidArray) σ₁]
  simp only [foldl_rows_any_order (commitStep _) (commitRow _) (commitStep_rows _) σ₂]

/-! ## Interchangeable boids -/

theorem sum_erase_perm {N : Nat} (f : Fin N → ℚ) (σ : Equiv.Perm (Fin N)) (j : Fin N) :
    ∑ k ∈ Finset.univ.erase j, f (σ k) = ∑ k ∈ Finset.univ.erase (σ j), f k := by
  rw [Finset.sum_erase_eq_sub (Finset.mem_univ j), Finset.sum_erase_eq_sub (Finset.mem_univ (σ j)),
    Equiv.sum_comp σ f]

theorem rule1_permuteRows {N : Nat} (σ : Equiv.Perm (Fin N)) (b : BoidArray N) (j : Fin N)
    (c : Fin 6) : rule1 (permuteRows σ b) j c = rule1 b (σ j) c := by
  rw [rule1_eq_sum, rule1_eq_sum]
  unfold permuteRows
  rw [sum_erase_perm (fun k => b k c) σ j]

theorem rule3_permuteRows {N : Nat} (σ : Equiv.Perm (Fin N)) (b : BoidArray N) (j : Fin N)
    (c : Fin 6) : rule3 (permuteRows σ b) j c = rule3 b (σ j) c := by
  rw [rule3_eq_sum, rule3_eq_sum]
  unfold permuteRows
  rw [sum_erase_perm (fun k => b k c) σ j]

theorem rule2_permuteRows {N : Nat} (σ : Equiv.Perm (Fin N)) (b : BoidArray N) (j : Fin N)
    (c : Fin 6) : rule2 (permuteRows σ b) j c = rule2 b (σ j) c := by
  rw [rule2_eq_sum, rule2_eq_sum, Finset.sum_filter, Finset.sum_filter]
  unfold permuteRows
  exact sum_erase_perm
    (fun k => if |b k c - b (σ j) c| < 1 then -(b k c - b (σ j) c) else 0) σ j

theorem column_cases (c : Fin 6) : ∃ a : Fin 3, c = posCol a ∨ c = velCol a := by
  revert c
  decide

/-- C16. Over exact arithmetic the boids are interchangeable: for every state
and every permutation `σ` of the boid indices, permuting the rows of
`boidArray` by `σ` and then calling `moveBoids` gives the same `boidArray` as
calling `moveBoids` first and permuting the rows by `σ` afterwards, `count` and
`sign` being the same in both runs. -/
theorem moveBoids_permuteRows (s : State POPSIZE) (σ : Equiv.Perm (Fin POPSIZE)) :
    (moveBoids { boidArray := permuteRows σ s.boidArray, boidUpdate := s.boidUpdate,
                 count := s.count, sign := s.sign }).boidArray
      = permuteRows σ (moveBoids s).boidArray := by
  have hv : ∀ (i : Fin POPSIZE) (a : Fin 3),
      (moveBoids { boidArray := permuteRows σ s.boidArray, boidUpdate := s.boidUpdate,
                   count := s.count, sign := s.sign }).boidArray i (velCol a)
        = (moveBoids s).boidArray (σ i) (velCol a) := by
    intro i a
    rw [moveBoids_vel, moveBoids_vel]
    simp only [rule1_permuteRows, rule2_permuteRows, rule3_permuteRows]
    rfl
  funext i c
  obtain ⟨a, h | h⟩ := column_cases c
  · subst h
    show _ = (moveBoids s).boidArray (σ i) (posCol a)
    rw [moveBoids_pos, moveBoids_pos, hv]
    rfl
  · subst h
    exact hv i a

/-! ## The homing rate; conservation of the total velocity -/

/-- C17, the code at a concrete state: in a fresh process with every boid at
the origin, the call of `moveFlock` adds `(60 - 0) / 200 = 3/10` to
`boidUpdate[0][BX]`, half of the `(60 - 0) / 100 = 3/5` that a pull of 1% of the
way to the target would add. -/
theorem homing_adds_half_percent :
    (moveFlock (initialState restFlock zeroUpdate)).boidUpdate ⟨0, by decide⟩ 0 = 3 / 10
      ∧ (coord (homingTarget (initialState restFlock zeroUpdate)) 0
          - restFlock ⟨0, by decide⟩ (posCol 0)) / 100 = 3 / 5 := by
  have ht : homingTarget (initialState restFlock zeroUpdate) = (60, 60, 60) := by
    rw [← Function.iterate_zero_apply moveFlock (initialState restFlock zeroUpdate),
      homingTarget_iterate moveFlock moveFlock_count moveFlock_sign]
    rfl
  constructor
  · have hu := ht
    unfold homingTarget at hu
    rw [moveFlock_boidUpdate, hu]
    norm_num [flockRow, initialState, zeroUpdate, restFlock, coord]
  · rw [ht]
    norm_num [restFlock, coord]

theorem rule1_total (b : BoidArray POPSIZE) (c : Fin 6) : ∑ j, rule1 b j c = 0 := by
  simp only [rule1_eq_sum, Finset.sum_erase_eq_sub (Finset.mem_univ _)]
  rw [← Finset.sum_div, Finset.sum_sub_distrib, ← Finset.sum_div, Finset.sum_sub_distrib,
    Finset.sum_const, Finset.card_univ, Fintype.card_fin]
  norm_num [POPSIZE]
  ring

theorem rule3_total (b : BoidArray POPSIZE) (c : Fin 6) : ∑ j, rule3 b j c = 0 := by
  simp only [rule3_eq_sum, Finset.sum_erase_eq_sub (Finset.mem_univ _)]
  rw [← Finset.sum_div, Finset.sum_sub_distrib, ← Finset.sum_div, Finset.sum_sub_distrib,
    Finset.sum_const, Finset.card_univ, Fintype.card_fin]
  norm_num [POPSIZE]
  ring

theorem rule2_eq_pairPush {N : Nat} (b : BoidArray N) (j : Fin N) (c : Fin 6) :
    rule2 b j c = ∑ i, pairPush b c i j := by
  rw [rule2_eq_sum, Finset.sum_filter, Finset.sum_erase_eq_sub (Finset.mem_univ j)]
  simp [pairPush]

theorem pairPush_antisymm {N : Nat} (b : BoidArray N) (c : Fin 6) (i j : Fin N) :
    pairPush b c i j = -pairPush b c j i := by
  unfold pairPush
  rw [abs_sub_comm (b i c) (b j c)]
  by_cases h : |b j c - b i c| < 1
  · rw [if_pos h, if_pos h]
    ring
  · rw [if_neg h, if_neg h, neg_zero]

theorem rule2_total {N : Nat} (b : BoidArray N) (c : Fin 6) : ∑ j, rule2 b j c = 0 := by
  have h : ∑ j, rule2 b j c = -∑ j, rule2 b j c := by
    calc ∑ j, rule2 b j c
        = ∑ j, ∑ i, pairPush b c i j := by simp only [rule2_eq_pairPush]
      _ = ∑ i, ∑ j, pairPush b c i j := Finset.sum_comm
      _ = ∑ i, ∑ j, -pairPush b c j i := by simp only [← pairPush_antisymm]
      _ = -∑ i, ∑ j, pairPush b c j i := by simp only [Finset.sum_neg_distrib]
      _ = -∑ j, rule2 b j c := by simp only [rule2_eq_pairPush]
  linarith

/-- C18. Over exact arithmetic the three local rules conserve the total
velocity: for every state and axis `a`, the sum over all boids of `rule1`, of
`rule2` and of `rule3` is `0` each, hence so is the sum of
`rule1 + rule2 + rule3`, and one call of `moveBoids` changes the sum of all
velocities on axis `a` by exactly the sum over the boids of the homing term
`(target[a] - position[j][a]) / 200`. -/
theorem rules_conserve_velocity (s : State POPSIZE) (a : Fin 3) :
    ∑ j, rule1 s.boidArray j (posCol a) = 0
      ∧ ∑ j, rule2 s.boidArray j (posCol a) = 0
      ∧ ∑ j, rule3 s.boidArray j (velCol a) = 0
      ∧ ∑ j, (rule1 s.boidArray j (posCol a) + rule2 s.boidArray j (posCol a)
              + rule3 s.boidArray j (velCol a)) = 0
      ∧ ∑ j, (moveBoids s).boidArray j (velCol a)
          = ∑ j, s.boidArray j (velCol a)
            + ∑ j, (coord (homingTarget s) a - s.boidArray j (posCol a)) / 200 := by
  have h1 := rule1_total s.boidArray (posCol a)
  have h2 := rule2_total s.boidArray (posCol a)
  have h3 := rule3_total s.boidArray (velCol a)
  refine ⟨h1, h2, h3, ?_, ?_⟩
  · rw [Finset.sum_add_distrib, Finset.sum_add_distrib, h1, h2, h3]
    norm_num
  · simp only [moveBoids_vel]
    rw [Finset.sum_add_distrib, Finset.sum_add_distrib, Finset.sum_add_distrib,
      Finset.sum_add_distrib, h1, h2, h3]
    norm_num

/-! ## The schedule of the target; the rest state -/

/-- C19. Closed form of the target schedule: starting from `count = 0` and
`sign = 1`, for every step index `k ≥ 0` (the 0-based number of the call of
`moveFlock`, made on its own or from `moveBoids`) the target used in that call
is `(60,60,60)` when `⌊k / 200⌋` is even and `(40,40,40)` when it is odd; the
flip test `count % 200 == 0` already fires on the very first call, which turns
`sign` from `1` to `-1` before the target is chosen. -/
theorem target_closed_form (b : BoidArray POPSIZE) (u : BoidUpdate POPSIZE) (k : Nat) :
    homingTarget (moveFlock^[k] (initialState b u))
        = (if (k / 200) % 2 = 0 then ((60, 60, 60) : ℚ × ℚ × ℚ) else (40, 40, 40))
      ∧ homingTarget (moveBoids^[k] (initialState b u))
        = (if (k / 200) % 2 = 0 then ((60, 60, 60) : ℚ × ℚ × ℚ) else (40, 40, 40))
      ∧ flipSign (initialState b u).count (initialState b u).sign = -1 :=
  ⟨homingTarget_iterate moveFlock moveFlock_count moveFlock_sign b u k,
    homingTarget_iterate moveBoids moveBoids_count moveBoids_sign b u k, rfl⟩

theorem coord_self (t : ℚ) (a : Fin 3) : coord (t, t, t) a = t := by
  unfold coord
  split_ifs <;> rfl

/-- C20. Rest state at the target: for every state in which every boid has,
on each axis, the position of the target selected by the current call and
velocity zero, one call of `moveBoids` leaves `boidArray` (every position and
every velocity) unchanged. -/
theorem moveBoids_rest_at_target (s : State POPSIZE)
    (hp : ∀ (i : Fin POPSIZE) (a : Fin 3), s.boidArray i (posCol a) = coord (homingTarget s) a)
    (hv : ∀ (i : Fin POPSIZE) (a : Fin 3), s.boidArray i (velCol a) = 0) :
    (moveBoids s).boidArray = s.boidArray := by
  have h1 : ∀ (i : Fin POPSIZE) (a : Fin 3), rule1 s.boidArray i (posCol a) = 0 := by
    intro i a
    rw [rule1_eq_sum]
    simp only [hp, Finset.sum_const, Finset.card_erase_of_mem (Finset.mem_univ i),
      Finset.card_univ, Fintype.card_fin]
    norm_num [POPSIZE]
  have h2 : ∀ (i : Fin POPSIZE) (a : Fin 3), rule2 s.boidArray i (posCol a) = 0 := by
    intro i a
    rw [rule2_eq_sum]
    apply Finset.sum_eq_zero
    intro k _
    rw [hp k a, hp i a, sub_self, neg_zero]
  have h3 : ∀ (i : Fin POPSIZE) (a : Fin 3), rule3 s.boidArray i (velCol a) = 0 := by
    intro i a
    rw [rule3_eq_sum]
    simp [hv]
  have hvel : ∀ (i : Fin POPSIZE) (a : Fin 3),
      (moveBoids s).boidArray i (velCol a) = s.boidArray i (velCol a) := by
    intro i a
    rw [moveBoids_vel, h1, h2, h3, hp i a]
    norm_num
  funext i c
  obtain ⟨a, h | h⟩ := column_cases c
  · subst h
    rw [moveBoids_pos, hvel, hv i a, add_zero]
  · subst h
    exact hvel i a

/-- Instance of C20: the flock at rest at `(60, 60, 60)` in a fresh process,
whose first call selects `(60, 60, 60)`, is left where it is. -/
theorem moveBoids_rest_at_target_witness :
    (moveBoids (initialState homeFlock zeroUpdate)).boidArray = homeFlock :=
  moveBoids_rest_at_target (initialState homeFlock zeroUpdate)
    (by
      intro i a
      have ht : homingTarget (initialState homeFlock zeroUpdate) = (60, 60, 60) := by
        rw [← Function.iterate_zero_apply moveFlock (initialState homeFlock zeroUpdate),
          homingTarget_iterate moveFlock moveFlock_count moveFlock_sign]
        rfl
      have ha : a.val < 3 := a.isLt
      rw [ht, coord_self]
      simp [initialState, homeFlock, posCol, ha])
    (by
      intro i a
      have ha : ¬ (a.val + 3 < 3) := by omega
      simp [initialState, homeFlock, velCol, ha])

/-! ## The proximity test in `float` arithmetic -/

theorem rule2Float_id {N : Nat} (b : BoidArray N) (j : Fin N) (c : Fin 6) :
    rule2Float (fun x => x) b j c = rule2 b j c := rfl

theorem foldl_filter_fuse {ι : Type} (p : ι → Prop) [DecidablePred p] (f : ℚ → ι → ℚ)
    (l : List ι) (acc : ℚ) :
    l.foldl (fun c i => if p i then f c i else c) acc
      = (l.filter (fun i => decide (p i))).foldl f acc := by
  induction l generalizing acc with
  | nil => rfl
  | cons i l ih =>
    by_cases h : p i
    · simp [List.filter_cons, h, ih]
    · simp [List.filter_cons, h, ih]

theorem rule2Float_eq_filter {N : Nat} (fl : ℚ → ℚ) (b : BoidArray N) (j : Fin N) (c : Fin 6) :
    rule2Float fl b j c
      = ((List.finRange N).filter
            (fun i => decide (i ≠ j ∧ |fl (b i c - b j c)| < 1))).foldl
          (fun acc i => fl (acc - fl (b i c - b j c))) 0 := by
  rw [← foldl_filter_fuse (fun i => i ≠ j ∧ |fl (b i c - b j c)| < 1)
    (fun acc i => fl (acc - fl (b i c - b j c)))]
  unfold rule2Float
  congr 1
  funext acc i
  by_cases h1 : i ≠ j <;> by_cases h2 : |fl (b i c - b j c)| < 1 <;> simp [h1, h2]

theorem roundHalfEven_ge (y : ℚ) (n : Int) (h : (n : ℚ) ≤ y) : n ≤ roundHalfEven y := by
  have hf : n ≤ ⌊y⌋ := Int.le_floor.mpr h
  unfold roundHalfEven
  split_ifs <;> omega

theorem roundHalfEven_le (y : ℚ) (n : Int) (h : y ≤ (n : ℚ)) : roundHalfEven y ≤ n := by
  have hf : (⌊y⌋ : ℚ) ≤ y := Int.floor_le y
  have hle : ⌊y⌋ ≤ n := by exact_mod_cast hf.trans h
  have hstep : (0 : ℚ) < y - (⌊y⌋ : ℚ) → ⌊y⌋ + 1 ≤ n := by
    intro hpos
    have hlt : (⌊y⌋ : ℚ) < (n : ℚ) := by linarith
    have hlt' : ⌊y⌋ < n := by exact_mod_cast hlt
    omega
  unfold roundHalfEven
  split_ifs with h1 h2 h3
  · exact hle
  · exact hstep (by linarith)
  · exact hle
  · exact hstep (by linarith)

theorem one_le_abs_toFloat (x : ℚ) (hx : 1 ≤ |x|) : 1 ≤ |toFloat x| := by
  have hx0 : x ≠ 0 := by
    intro h
    rw [h, abs_zero] at hx
    norm_num at hx
  have hpos : (0 : ℚ) < |x| := abs_pos.mpr hx0
  have he : 0 ≤ Int.log 2 |x| := by
    rw [← Int.zpow_le_iff_le_log (by norm_num) hpos]
    simpa using hx
  have hE : ((2 : ℕ) : ℚ) ^ Int.log 2 |x| ≤ |x| := Int.zpow_log_le_self (by norm_num) hpos
  have hm : max (Int.log 2 |x|) (-126) = Int.log 2 |x| := max_eq_left (by omega)
  have hE1 : (1 : ℚ) ≤ (2 : ℚ) ^ Int.log 2 |x| := one_le_zpow₀ (by norm_num) he
  have hq : (2 : ℚ) ^ (Int.log 2 |x| - 23) = (2 : ℚ) ^ Int.log 2 |x| / 8388608 := by
    rw [zpow_sub₀ (by norm_num)]
    norm_num
  unfold toFloat
  rw [if_neg hx0, hm, hq]
  push_cast at hE
  generalize (2 : ℚ) ^ Int.log 2 |x| = E at hE hE1
  have hEpos : (0 : ℚ) < E := by linarith
  have hqpos : (0 : ℚ) < E / 8388608 := by positivity
  rcases lt_or_gt_of_ne hx0 with hneg | hp
  · rw [abs_of_neg hneg] at hE
    have hy : x / (E / 8388608) ≤ ((-8388608 : Int) : ℚ) := by
      rw [div_le_iff₀ hqpos]
      push_cast
      linarith
    have hn := roundHalfEven_le _ _ hy
    have hn' : (roundHalfEven (x / (E / 8388608)) : ℚ) ≤ -8388608 := by exact_mod_cast hn
    have hval : (roundHalfEven (x / (E / 8388608)) : ℚ) * (E / 8388608) ≤ -1 := by
      nlinarith
    rw [abs_of_neg (by linarith)]
    linarith
  · rw [abs_of_pos hp] at hE
    have hy : ((8388608 : Int) : ℚ) ≤ x / (E / 8388608) := by
      rw [le_div_iff₀ hqpos]
      push_cast
      linarith
    have hn := roundHalfEven_ge _ _ hy
    have hn' : (8388608 : ℚ) ≤ (roundHalfEven (x / (E / 8388608)) : ℚ) := by exact_mod_cast hn
    have hval : 1 ≤ (roundHalfEven (x / (E / 8388608)) : ℚ) * (E / 8388608) := by
      nlinarith
    rw [abs_of_pos (by linarith)]
    exact hval

theorem log_near_one : Int.log 2 |(1 / 1073741824 - 1 : ℚ)| = -1 := by
  have hx : |(1 / 1073741824 - 1 : ℚ)| = 1073741823 / 1073741824 := by
    rw [abs_of_neg (by norm_num)]; norm_num
  rw [hx]
  have hpos : (0 : ℚ) < 1073741823 / 1073741824 := by norm_num
  apply le_antisymm
  · have h : Int.log 2 (1073741823 / 1073741824 : ℚ) < 0 := by
      rw [← Int.lt_zpow_iff_log_lt (by norm_num) hpos]
      norm_num
    omega
  · rw [← Int.zpow_le_iff_le_log (by norm_num) hpos]
    norm_num

theorem toFloat_near_one : toFloat (1 / 1073741824 - 1) = -1 := by
  unfold toFloat
  rw [if_neg (by norm_num), log_near_one]
  have hm : max (-1 : Int) (-126) - 23 = -24 := by decide
  rw [hm]
  have hq : (1 / 1073741824 - 1 : ℚ) / (2 : ℚ) ^ (-24 : Int) = -16777216 + 1 / 64 := by
    norm_num
  rw [hq]
  have hf : ⌊(-16777216 + 1 / 64 : ℚ)⌋ = -16777216 := by
    rw [Int.floor_eq_iff]
    constructor <;> norm_num
  have hr : roundHalfEven (-16777216 + 1 / 64) = -16777216 := by
    unfold roundHalfEven
    rw [hf, if_pos (by norm_num)]
  rw [hr]
  norm_num

theorem rule2Float_zero_of_skip {N : Nat} (fl : ℚ → ℚ) (b : BoidArray N) (j : Fin N) (c : Fin 6)
    (h : ∀ i, i ≠ j → ¬ |fl (b i c - b j c)| < 1) : rule2Float fl b j c = 0 := by
  have hnil : (List.finRange N).filter
      (fun i => decide (i ≠ j ∧ |fl (b i c - b j c)| < 1)) = [] := by
    rw [List.filter_eq_nil_iff]
    intro i _ hi
    rw [decide_eq_true_eq] at hi
    exact h i hi.1 hi.2
  rw [rule2Float_eq_filter, hnil]
  rfl

/-- C3, the claim as stated fails: in `nearFlock` boid `1` is at distance
`1 - 2 ^ (-30) < 1` from boid `0`, so the sum of the claim is `1 - 2 ^ (-30)`;
the program subtracts in `float`, where the difference is `-1`, the test
`fabs(..) < 1` fails and `rule2(0, BX)` is `0`. -/
theorem rule2_skips_neighbour_rounded_to_one :
    rule2Float toFloat nearFlock ⟨0, by decide⟩ (posCol 0) = 0
      ∧ ∑ i ∈ (Finset.univ.erase (⟨0, by decide⟩ : Fin POPSIZE)).filter
            (fun i => |nearFlock i (posCol 0) - nearFlock ⟨0, by decide⟩ (posCol 0)| < 1),
          -(nearFlock i (posCol 0) - nearFlock ⟨0, by decide⟩ (posCol 0))
        = 1 - 1 / 1073741824 := by
  constructor
  · apply rule2Float_zero_of_skip
    intro i hi
    have hi0 : i.val ≠ 0 := fun h => hi (Fin.ext h)
    by_cases h1 : i.val = 1
    · have e : nearFlock i (posCol 0) - nearFlock ⟨0, by decide⟩ (posCol 0)
          = 1 / 1073741824 - 1 := by
        simp [nearFlock, h1]
      rw [e, toFloat_near_one]
      norm_num
    · have e : nearFlock i (posCol 0) - nearFlock ⟨0, by decide⟩ (posCol 0) = 49 := by
        simp [nearFlock, hi0, h1]
        norm_num
      rw [e]
      exact not_lt.mpr (one_le_abs_toFloat 49 (by norm_num))
  · rw [Finset.sum_filter, Finset.sum_eq_single (⟨1, by decide⟩ : Fin POPSIZE)]
    · have e1 : nearFlock ⟨1, by decide⟩ (posCol 0) - nearFlock ⟨0, by decide⟩ (posCol 0)
          = 1 / 1073741824 - 1 := by
        norm_num [nearFlock]
      have hlt : |(1 / 1073741824 - 1 : ℚ)| < 1 := by
        rw [abs_of_neg (by norm_num)]
        norm_num
      rw [e1, if_pos hlt]
      norm_num
    · intro i hi h1
      have hi0 : i.val ≠ 0 := fun h => (Finset.mem_erase.mp hi).1 (Fin.ext h)
      have h1' : i.val ≠ 1 := fun h => h1 (Fin.ext h)
      have e : nearFlock i (posCol 0) - nearFlock ⟨0, by decide⟩ (posCol 0) = 49 := by
        simp [nearFlock, hi0, h1']
        norm_num
      rw [e, if_neg (by norm_num)]
    · intro h
      exact absurd (Finset.mem_erase.mpr ⟨by decide, Finset.mem_univ _⟩) h

/-- C3, amended. For every flock, boid `j` and column `a`, with the
subtractions of `rule2` done in `float` (`fl` rounds an exact result to
`float`): `rule2 j a` is the unscaled accumulation, in index order, of `-d i`
over exactly the boids `i ≠ j` with `|d i| < 1`, where `d i` is the rounded
difference `fl (boidArray[i][a] - boidArray[j][a])`; the test is strict and
looks at column `a` alone. Under the rounding `toFloat` of the program a boid
whose exact difference is at least `1` never passes the test, and without
rounding the accumulation is the plain sum of `-(boidArray[i][a] -
boidArray[j][a])` over the boids `i ≠ j` with `|boidArray[i][a] -
boidArray[j][a]| < 1`. -/
theorem rule2Float_spec (fl : ℚ → ℚ) (b : BoidArray POPSIZE) (j : Fin POPSIZE) (a : Fin 6) :
    rule2Float fl b j a
        = ((List.finRange POPSIZE).filter
              (fun i => decide (i ≠ j ∧ |fl (b i a - b j a)| < 1))).foldl
            (fun acc i => fl (acc - fl (b i a - b j a))) 0
      ∧ (∀ i : Fin POPSIZE, 1 ≤ |b i a - b j a| → ¬ |toFloat (b i a - b j a)| < 1)
      ∧ rule2Float (fun x => x) b j a
          = ∑ i ∈ (Finset.univ.erase j).filter (fun i => |b i a - b j a| < 1),
              -(b i a - b j a) :=
  ⟨rule2Float_eq_filter fl b j a,
    fun _ h => not_lt.mpr (one_le_abs_toFloat _ h),
    (rule2Float_id b j a).trans (rule2_eq_sum b j a)⟩

/-- Instance of C3, amended: boid `2` of `nearFlock`, at distance `49` from boid
`0`, does not pass the proximity test. -/
theorem rule2Float_spec_witness :
    ¬ |toFloat (nearFlock ⟨2, by decide⟩ (posCol 0) - nearFlock ⟨0, by decide⟩ (posCol 0))| < 1 :=
  (rule2Float_spec toFloat nearFlock ⟨0, by decide⟩ (posCol 0)).2.1 ⟨2, by decide⟩
    (by
      have e : nearFlock ⟨2, by decide⟩ (posCol 0) - nearFlock ⟨0, by decide⟩ (posCol 0)
          = 49 := by
        norm_num [nearFlock]
      rw [e]
      norm_num)


end Boids
